import Mathlib

/-!
# Verification of the secret-santa-backend core

Shallow embedding of the assignment service (`app/services/assignment.py`)
and of the admin/user routers (`app/routers/admin.py`, `app/routers/users.py`)
of the secret-santa-backend repository, together with proofs of the
specification's testable properties.

Database rows are embedded as Lean structures; the SQL queries used by the
code are embedded as list filters over the row lists.  The Python
`random.shuffle` of candidate indices inside the backtracking search is
embedded as an oracle `order : List Int → List Nat` giving, for each partial
assignment (which uniquely identifies a node of the search tree), the order
in which the candidate recipient indices are tried; the Python behaviour is
recovered by the hypothesis that each such list is a permutation of
`List.range n`.
-/

namespace SecretSanta

/-- Event lifecycle status, from `EventStatus` in `app/models.py`. -/
inductive EventStatus where
  | DRAFT
  | OPEN
  | ASSIGNED
  | CLOSED
deriving DecidableEq

/-- An `events` table row (`Event` in `app/models.py`); only the columns the
verified operations read are embedded.  `created_at` is embedded as `Int`. -/
structure EventRec where
  id : Int
  event_name : String
  status : EventStatus
  created_at : Int
deriving DecidableEq

/-- A `receivers` table row (`Receiver` in `app/models.py`). -/
structure ReceiverRec where
  user_id : Int
  event_id : Int
  gifter_id : Option Int
  message : Option String
deriving DecidableEq

/-- A `users` table row (`User` in `app/models.py`); only the columns the
verified operations read are embedded. -/
structure UserRec where
  id : Int
  name : String
  email : String
  is_admin : Bool
deriving DecidableEq

/-- The database state visible to the verified operations. -/
structure DB where
  events : List EventRec
  receivers : List ReceiverRec
  users : List UserRec
deriving DecidableEq

/-!
## The backtracking search (`_find_valid_assignment`)

The Python function keeps a mutable `assignment` array filled left to right
and a `used` bit per candidate index.  We embed the recursion with `acc` the
prefix of the assignment filled so far (position `pos` is `acc.length`) and
fuel `n - pos`; `santaTry` is the inner `for recipient_idx in indices` loop.
-/

/-- The candidate loop of `_find_valid_assignment.backtrack`
(`app/services/assignment.py` lines 62-84): try each candidate index in
turn, skipping used indices, self-gifting and forbidden pairs, and recurse
(`next`) on the first acceptable one; on a failed subtree, continue with the
remaining candidates. -/
def santaTry (ids : List Int) (forb : List (Int × Int))
    (next : List Int → List Bool → Option (List Int)) :
    List Int → List Bool → List Nat → Option (List Int)
  | _, _, [] => none
  | acc, used, idx :: rest =>
    let gifter := ids.getD acc.length 0
    let recipient := ids.getD idx 0
    if used.getD idx false || gifter == recipient || decide ((gifter, recipient) ∈ forb) then
      santaTry ids forb next acc used rest
    else
      match next (acc ++ [recipient]) (used.set idx true) with
      | some result => some result
      | none => santaTry ids forb next acc used rest

/-- `backtrack(pos)` of `_find_valid_assignment` with `fuel = n - pos`:
at fuel `0` the assignment is complete and is returned; otherwise the
candidate indices in the order given by the shuffle oracle are tried. -/
def santaGo (ids : List Int) (forb : List (Int × Int)) (order : List Int → List Nat) :
    Nat → List Int → List Bool → Option (List Int)
  | 0, acc, _ => some acc
  | fuel + 1, acc, used => santaTry ids forb (santaGo ids forb order fuel) acc used (order acc)

/-- `_find_valid_assignment(user_ids, forbidden)` (`app/services/assignment.py`
lines 42-88), with the forbidden dict-of-sets embedded as a pair list (all
accesses are membership tests) and the per-call `random.shuffle` embedded as
the `order` oracle. -/
def findValidAssignment (ids : List Int) (forb : List (Int × Int))
    (order : List Int → List Nat) : Option (List Int) :=
  santaGo ids forb order ids.length [] (List.replicate ids.length false)

/-!
## History resolution (`assign_secret_santa`, lines 122-174)
-/

/-- One step of `forbidden_assignments[gifter_id].add(recipient_id)`: the
dict-of-sets is embedded as a pair list, all later accesses being membership
tests.  Rows reach this step only with a non-null gifter (the queries filter
on `gifter_id.is_not(None)`). -/
def addHistoryPair (forb : List (Int × Int)) (r : ReceiverRec) : List (Int × Int) :=
  match r.gifter_id with
  | some g => forb ++ [(g, r.user_id)]
  | none => forb

/-- The events eligible as default history for the current event
(`Event.event_name == current, Event.id != event_id, status == ASSIGNED`),
ordered by `created_at` descending as in `order_by(Event.created_at.desc())`
(ties, which SQL leaves unspecified, are broken by the scan order). -/
def matchingEvents (db : DB) (eventId : Int) (name : String) : List EventRec :=
  (db.events.filter
      (fun e => e.event_name == name && e.id != eventId && e.status == EventStatus.ASSIGNED)
    ).insertionSort (fun a b => b.created_at ≤ a.created_at)

/-- The receiver rows of event `e` that survive the history join's
`Receiver.event_id == e.id` and `Receiver.gifter_id.is_not(None)` filters. -/
def joinedRows (db : DB) (e : EventRec) : List ReceiverRec :=
  db.receivers.filter (fun r => r.event_id == e.id && r.gifter_id.isSome)

/-- The `(Event, Receiver)` rows returned by the default-history join of
`assign_secret_santa` (lines 127-137), grouped by event in descending
creation-time order. -/
def historyRowsDefault (db : DB) (eventId : Int) (name : String) :
    List (EventRec × ReceiverRec) :=
  ((matchingEvents db eventId name).map (fun e => (joinedRows db e).map (fun r => (e, r)))).flatten

/-- The `for event, receiver in history_data` loop of `assign_secret_santa`
(lines 139-155): count distinct events in encounter order, stop (`break`)
when a third distinct event is reached, and record the pair of every row
seen while at most two events have been counted. -/
def processHistory : List (EventRec × ReceiverRec) → List Int → Nat → List (Int × Int) →
    List (Int × Int)
  | [], _, _, forb => forb
  | (e, r) :: rest, processed, count, forb =>
    if e.id ∈ processed then
      if count ≤ 2 then processHistory rest processed count (addHistoryPair forb r)
      else processHistory rest processed count forb
    else
      if count + 1 > 2 then forb
      else processHistory rest (e.id :: processed) (count + 1) (addHistoryPair forb r)

/-- The forbidden-pair set built in default history mode
(`history_event_ids is None`, lines 125-155). -/
def buildDefaultForbidden (db : DB) (eventId : Int) (name : String) : List (Int × Int) :=
  processHistory (historyRowsDefault db eventId name) [] 0 []

/-- The forbidden-pair set built in explicit history mode (lines 157-172):
all pairs of receiver rows whose `event_id` is among the supplied ids and
whose gifter is non-null. -/
def buildExplicitForbidden (db : DB) (histIds : List Int) : List (Int × Int) :=
  (db.receivers.filter (fun r => histIds.contains r.event_id && r.gifter_id.isSome)
    ).foldl addHistoryPair []

/-- The three-way history dispatch of `assign_secret_santa` (lines 125-174):
`None` → default mode, non-empty list → explicit mode, empty list → no
forbidden pairs. -/
def resolveForbiddenPairs (db : DB) (eventId : Int) (name : String)
    (histIds : Option (List Int)) : List (Int × Int) :=
  match histIds with
  | none => buildDefaultForbidden db eventId name
  | some l => if l.length > 0 then buildExplicitForbidden db l else []

/-!
## Row update helpers

The Python code mutates ORM row objects in place and commits; we embed those
mutations as first-match updates of the corresponding row lists (row identity
is the primary key, which the schema makes unique).
-/

/-- Set the status of the first event row with the given id
(the ORM object mutation `event.status = ...` followed by `commit`). -/
def setEventStatus : List EventRec → Int → EventStatus → List EventRec
  | [], _, _ => []
  | e :: es, eventId, s =>
    if e.id == eventId then { e with status := s } :: es
    else e :: setEventStatus es eventId s

/-- Update the first receiver row with the given `(event_id, user_id)` key. -/
def updateReceiver : List ReceiverRec → Int → Int → (ReceiverRec → ReceiverRec) →
    List ReceiverRec
  | [], _, _, _ => []
  | r :: rs, eventId, userId, f =>
    if r.event_id == eventId && r.user_id == userId then f r :: rs
    else r :: updateReceiver rs eventId userId f

/-- Delete the first receiver row with the given `(event_id, user_id)` key
(the ORM `session.delete(participant)`). -/
def deleteReceiver : List ReceiverRec → Int → Int → List ReceiverRec
  | [], _, _ => []
  | r :: rs, eventId, userId =>
    if r.event_id == eventId && r.user_id == userId then rs
    else r :: deleteReceiver rs eventId userId

/-- The participant rows of an event
(`select(Receiver).where(Receiver.event_id == event_id)`). -/
def participantsOf (db : DB) (eventId : Int) : List ReceiverRec :=
  db.receivers.filter (fun r => r.event_id == eventId)

/-- Look up an event by id (`select(Event).where(Event.id == event_id)` then
`.first()`). -/
def findEvent (db : DB) (eventId : Int) : Option EventRec :=
  db.events.find? (fun e => e.id == eventId)

/-- The status of the event with the given id, if it exists. -/
def eventStatus (db : DB) (eventId : Int) : Option EventStatus :=
  (findEvent db eventId).map (fun e => e.status)

/-- Look up a participant row (`select(Receiver).where(user_id == ..,
event_id == ..)` then `.first()`). -/
def findParticipant (db : DB) (eventId userId : Int) : Option ReceiverRec :=
  db.receivers.find? (fun r => r.user_id == userId && r.event_id == eventId)

/-!
## Lifecycle (`check_and_update_event_status`, lines 11-39)
-/

/-- `check_and_update_event_status(session, event_id)`: performs the
automatic `DRAFT → OPEN` transition when the event is in `DRAFT` and has at
least one participant; returns whether the status changed, together with the
resulting state. -/
def checkAndUpdateEventStatus (db : DB) (eventId : Int) : Bool × DB :=
  match findEvent db eventId with
  | none => (false, db)
  | some e =>
    let participants := participantsOf db eventId
    if e.status == EventStatus.DRAFT && participants.length > 0 then
      (true, { db with events := setEventStatus db.events eventId EventStatus.OPEN })
    else
      (false, db)

/-!
## Assignment (`assign_secret_santa`, lines 91-198, and the admin router)
-/

/-- The `for i, participant in enumerate(participants)` loop applying a
found assignment (lines 189-194): the receiver row of recipient
`assignment[i]` gets `participants[i].user_id` as gifter. -/
def applyAssignment (rs : List ReceiverRec) (eventId : Int) :
    List (ReceiverRec × Int) → List ReceiverRec
  | [] => rs
  | (p, recipientId) :: rest =>
    applyAssignment
      (updateReceiver rs eventId recipientId (fun r => { r with gifter_id := some p.user_id }))
      eventId rest

/-- `assign_secret_santa(session, event_id, participants, history_event_ids)`
(lines 91-198): resolve the forbidden pairs, run the backtracking search on
the participants' user ids, and on success write each gifter.  Returns the
success flag and the resulting state. -/
def assignSecretSanta (db : DB) (eventId : Int) (participants : List ReceiverRec)
    (histIds : Option (List Int)) (order : List Int → List Nat) : Bool × DB :=
  if participants.length < 2 then (false, db)
  else
    match findEvent db eventId with
    | none => (false, db)
    | some cur =>
      let forb := resolveForbiddenPairs db eventId cur.event_name histIds
      let userIds := participants.map (fun p => p.user_id)
      match findValidAssignment userIds forb order with
      | none => (false, db)
      | some assignment =>
        (true, { db with
          receivers := applyAssignment db.receivers eventId (participants.zip assignment) })

/-- `POST /admin/events/{id}/assign` (`assign_event`, `app/routers/admin.py`
lines 372-427): look the event up, require at least two participants, run
`assign_secret_santa`, and on success set the event status to `ASSIGNED`.
The route performs no check of the current event status. -/
def assignEvent (db : DB) (eventId : Int) (histIds : Option (List Int))
    (order : List Int → List Nat) : Bool × DB :=
  match findEvent db eventId with
  | none => (false, db)
  | some _ =>
    if (participantsOf db eventId).length < 2 then (false, db)
    else
      match assignSecretSanta db eventId (participantsOf db eventId) histIds order with
      | (false, db') => (false, db')
      | (true, db') =>
        (true, { db' with events := setEventStatus db'.events eventId EventStatus.ASSIGNED })

/-- The four validation checks of `assign_event_manually`
(`app/routers/admin.py` lines 466-506), in source order: recipients equal
the participant set, gifters are participants, no self-assignment, and the
number of distinct gifters equals the number of pairs.  A pair is
`(gifter_user_id, recipient_user_id)`. -/
def validateManualAssignment (pids : List Int) (pairs : List (Int × Int)) : Bool :=
  decide ((pairs.map (fun p => p.2)).toFinset = pids.toFinset) &&
  decide ((pairs.map (fun p => p.1)).toFinset ⊆ pids.toFinset) &&
  pairs.all (fun p => p.1 != p.2) &&
  ((pairs.map (fun p => p.1)).toFinset.card == pairs.length)

/-- The `for assignment in assignments.assignments` application loop of
`assign_event_manually` (lines 509-518): each recipient's row gets its
gifter set. -/
def applyManualPairs (rs : List ReceiverRec) (eventId : Int) :
    List (Int × Int) → List ReceiverRec
  | [] => rs
  | (g, recip) :: rest =>
    applyManualPairs
      (updateReceiver rs eventId recip (fun r => { r with gifter_id := some g }))
      eventId rest

/-- `POST /admin/events/{id}/assign-manual` (`assign_event_manually`,
`app/routers/admin.py` lines 435-528): look the event up, require at least
two participants, validate the proposed pairs, and on success apply them
verbatim and set the status to `ASSIGNED`.  The route performs no check of
the current event status. -/
def assignEventManually (db : DB) (eventId : Int) (pairs : List (Int × Int)) : Bool × DB :=
  match findEvent db eventId with
  | none => (false, db)
  | some _ =>
    let participants := participantsOf db eventId
    if participants.length < 2 then (false, db)
    else if !validateManualAssignment (participants.map (fun p => p.user_id)) pairs then
      (false, db)
    else
      (true, { db with
        events := setEventStatus db.events eventId EventStatus.ASSIGNED,
        receivers := applyManualPairs db.receivers eventId pairs })

/-- `POST /admin/events/{id}/reopen` (`reopen_event`, `app/routers/admin.py`
lines 551-579): on a `CLOSED` event, set the status to `ASSIGNED` if any of
the event's receiver rows has a non-null gifter and to `OPEN` otherwise; on
any other status the state is untouched. -/
def reopenEvent (db : DB) (eventId : Int) : DB :=
  match findEvent db eventId with
  | none => db
  | some e =>
    if e.status == EventStatus.CLOSED then
      let assignments :=
        db.receivers.filter (fun r => r.event_id == eventId && r.gifter_id.isSome)
      if assignments.isEmpty then
        { db with events := setEventStatus db.events eventId EventStatus.OPEN }
      else
        { db with events := setEventStatus db.events eventId EventStatus.ASSIGNED }
    else db

/-!
## Join / leave / message operations (`app/routers/users.py`, `admin.py`)
-/

/-- `POST /users/events/join` (`join_event`, `app/routers/users.py` lines
166-219): reject if the event is missing, not in `DRAFT`/`OPEN`, or already
joined; otherwise insert the receiver row and run the lifecycle check. -/
def joinEvent (db : DB) (userId eventId : Int) (msg : Option String) : Bool × DB :=
  match findEvent db eventId with
  | none => (false, db)
  | some e =>
    if !(e.status == EventStatus.DRAFT || e.status == EventStatus.OPEN) then (false, db)
    else if (findParticipant db eventId userId).isSome then (false, db)
    else
      let db' := { db with receivers := db.receivers ++ [⟨userId, eventId, none, msg⟩] }
      (true, (checkAndUpdateEventStatus db' eventId).2)

/-- `DELETE /users/events/{id}/leave` (`leave_event`, `app/routers/users.py`
lines 274-334): reject if the event is missing, in `ASSIGNED`/`CLOSED`, or
the user is not a participant; otherwise delete the row and run the
lifecycle check. -/
def leaveEvent (db : DB) (userId eventId : Int) : Bool × DB :=
  match findEvent db eventId with
  | none => (false, db)
  | some e =>
    if e.status == EventStatus.ASSIGNED || e.status == EventStatus.CLOSED then (false, db)
    else if (findParticipant db eventId userId).isNone then (false, db)
    else
      let db' := { db with receivers := deleteReceiver db.receivers eventId userId }
      (true, (checkAndUpdateEventStatus db' eventId).2)

/-- `PUT /users/events/{id}/message` (`update_message`,
`app/routers/users.py` lines 222-271): reject if the event is missing, in
`ASSIGNED`/`CLOSED`, or the user is not a participant; otherwise set the
message and run the lifecycle check. -/
def updateMessage (db : DB) (userId eventId : Int) (msg : Option String) : Bool × DB :=
  match findEvent db eventId with
  | none => (false, db)
  | some e =>
    if e.status == EventStatus.ASSIGNED || e.status == EventStatus.CLOSED then (false, db)
    else if (findParticipant db eventId userId).isNone then (false, db)
    else
      let db' := { db with
        receivers := updateReceiver db.receivers eventId userId
          (fun r => { r with message := msg }) }
      (true, (checkAndUpdateEventStatus db' eventId).2)

/-- `POST /admin/events/{id}/add-participant` (`add_participant_to_event`,
`app/routers/admin.py` lines 712-769): reject if the event or user is
missing or the user already participates; otherwise insert the row and run
the lifecycle check.  The route performs no check of the event status. -/
def addParticipantToEvent (db : DB) (eventId userId : Int) : Bool × DB :=
  match findEvent db eventId with
  | none => (false, db)
  | some _ =>
    if (db.users.find? (fun u => u.id == userId)).isNone then (false, db)
    else if (findParticipant db eventId userId).isSome then (false, db)
    else
      let db' := { db with receivers := db.receivers ++ [⟨userId, eventId, none, none⟩] }
      (true, (checkAndUpdateEventStatus db' eventId).2)

/-- `DELETE /admin/events/{id}/participants/{uid}`
(`remove_participant_from_event`, `app/routers/admin.py` lines 772-809):
reject if the event is missing, in `ASSIGNED`/`CLOSED`, or the user is not a
participant; otherwise delete the row (no lifecycle check follows). -/
def removeParticipantFromEvent (db : DB) (eventId userId : Int) : Bool × DB :=
  match findEvent db eventId with
  | none => (false, db)
  | some e =>
    if e.status == EventStatus.ASSIGNED || e.status == EventStatus.CLOSED then (false, db)
    else if (findParticipant db eventId userId).isNone then (false, db)
    else
      (true, { db with receivers := deleteReceiver db.receivers eventId userId })

/-- `PUT /admin/events/{id}/participants/{uid}/message`
(`update_participant_message`, `app/routers/admin.py` lines 812-863): reject
if the event is missing or the user is not a participant; otherwise set the
message.  The route performs no check of the event status. -/
def adminUpdateParticipantMessage (db : DB) (eventId userId : Int) (msg : Option String) :
    Bool × DB :=
  match findEvent db eventId with
  | none => (false, db)
  | some _ =>
    if (findParticipant db eventId userId).isNone then (false, db)
    else
      (true, { db with
        receivers := updateReceiver db.receivers eventId userId
          (fun r => { r with message := msg }) })

/-!
## Search invariants and solution predicates
-/

/-- Invariant of a backtracking state: `acc` lists the recipients chosen for
positions `0..acc.length-1`, `idxs` the (distinct, in-range) candidate
indices they were taken from, `used` marks exactly those indices, and every
chosen recipient satisfies the no-self and no-forbidden constraints of its
position's gifter. -/
structure SearchInv (ids : List Int) (forb : List (Int × Int))
    (acc : List Int) (used : List Bool) (idxs : List Nat) : Prop where
  used_len : used.length = ids.length
  idxs_len : idxs.length = acc.length
  idxs_nodup : idxs.Nodup
  idxs_lt : ∀ i ∈ idxs, i < ids.length
  used_iff : ∀ i, used.getD i false = true ↔ i ∈ idxs
  acc_eq : ∀ j, j < acc.length → acc.getD j 0 = ids.getD (idxs.getD j 0) 0
  no_self : ∀ j, j < acc.length → acc.getD j 0 ≠ ids.getD j 0
  not_forb : ∀ j, j < acc.length → (ids.getD j 0, acc.getD j 0) ∉ forb

/-- What the search guarantees about a returned assignment: full length, the
recipients are the participants read off along a permutation of the index
range, and every position satisfies the no-self and no-forbidden
constraints. -/
def SearchSound (ids : List Int) (forb : List (Int × Int)) (res : List Int) : Prop :=
  res.length = ids.length ∧
  (∃ idxs : List Nat, idxs.Perm (List.range ids.length) ∧
    ∀ j, j < ids.length → res.getD j 0 = ids.getD (idxs.getD j 0) 0) ∧
  ∀ j, j < ids.length →
    res.getD j 0 ≠ ids.getD j 0 ∧ (ids.getD j 0, res.getD j 0) ∉ forb

/-- A valid derangement exists: some assignment of distinct candidate
indices to positions (a permutation of the index range) respects the
no-self and no-forbidden constraints at every position. -/
def HasValidAssignment (ids : List Int) (forb : List (Int × Int)) : Prop :=
  ∃ idxs : List Nat, idxs.Perm (List.range ids.length) ∧
    ∀ j, j < ids.length →
      ids.getD (idxs.getD j 0) 0 ≠ ids.getD j 0 ∧
      (ids.getD j 0, ids.getD (idxs.getD j 0) 0) ∉ forb

/-- A backtracking state together with a list `rest` of the remaining
indices that completes it to a valid full assignment. -/
def ExtendsToSolution (ids : List Int) (forb : List (Int × Int))
    (acc : List Int) (idxs rest : List Nat) : Prop :=
  (idxs ++ rest).Perm (List.range ids.length) ∧
  ∀ j, acc.length ≤ j → j < ids.length →
    ids.getD ((idxs ++ rest).getD j 0) 0 ≠ ids.getD j 0 ∧
    (ids.getD j 0, ids.getD ((idxs ++ rest).getD j 0) 0) ∉ forb

/-- The shuffle oracle only produces in-range candidate indices (true of
`random.shuffle(list(range(n)))`). -/
def OrderBounded (ids : List Int) (order : List Int → List Nat) : Prop :=
  ∀ acc, ∀ i ∈ order acc, i < ids.length

/-- The shuffle oracle produces, at every node, a permutation of
`range n` — exactly what `random.shuffle(list(range(n)))` produces. -/
def OrderComplete (ids : List Int) (order : List Int → List Nat) : Prop :=
  ∀ acc, (order acc).Perm (List.range ids.length)

/-!
## Spec-side history definitions (for claim C4)
-/

/-- The forbidden-pair set as C4's words describe it: a pair is forbidden
iff it is recorded (with non-null gifter) in one of the *two most recent*
events that share the current event's name, have status `ASSIGNED` and are
distinct from the current event.  Stated for comparison with
`buildDefaultForbidden`; not part of the code embedding. -/
def ClaimDefaultForbidden (db : DB) (eventId : Int) (name : String) (g r : Int) : Prop :=
  ∃ e ∈ (matchingEvents db eventId name).take 2,
    ∃ row ∈ db.receivers, row.event_id = e.id ∧ row.gifter_id = some g ∧ row.user_id = r

/-- The eligible history events actually seen by the code's join: matching
events that have at least one receiver row with a non-null gifter. -/
def eligibleHistoryEvents (db : DB) (eventId : Int) (name : String) : List EventRec :=
  (matchingEvents db eventId name).filter (fun e => !(joinedRows db e).isEmpty)

/-- The amended description of the default forbidden-pair set: a pair is
forbidden iff it is recorded in one of the two most recent matching
`ASSIGNED` events *that contribute at least one non-null-gifter row*. -/
def AmendedDefaultForbidden (db : DB) (eventId : Int) (name : String) (g r : Int) : Prop :=
  ∃ e ∈ (eligibleHistoryEvents db eventId name).take 2,
    ∃ row ∈ db.receivers, row.event_id = e.id ∧ row.gifter_id = some g ∧ row.user_id = r

/-!
## Concrete states for counterexamples and witnesses
-/

/-- A closed event with two unassigned participants. -/
def dbClosedTwo : DB :=
  { events := [⟨1, "X", EventStatus.CLOSED, 0⟩],
    receivers := [⟨1, 1, none, none⟩, ⟨2, 1, none, none⟩],
    users := [⟨1, "a", "a@x", false⟩, ⟨2, "b", "b@x", false⟩] }

/-- A deterministic shuffle oracle for two participants. -/
def ordTwo : List Int → List Nat := fun _ => [0, 1]

/-- A current event `0` and three prior `ASSIGNED` events of the same name:
the most recent (`1`, created at `3`) has only a null-gifter row, the next
(`2`, created at `2`) recorded `5 → 7`, and the oldest (`3`, created at `1`)
recorded `8 → 9`. -/
def dbHistorySkip : DB :=
  { events := [⟨0, "X", EventStatus.OPEN, 10⟩, ⟨1, "X", EventStatus.ASSIGNED, 3⟩,
               ⟨2, "X", EventStatus.ASSIGNED, 2⟩, ⟨3, "X", EventStatus.ASSIGNED, 1⟩],
    receivers := [⟨7, 1, none, none⟩, ⟨7, 2, some 5, none⟩, ⟨9, 3, some 8, none⟩],
    users := [] }

/-- An `ASSIGNED` event with one participant and a second registered user. -/
def dbAssignedOne : DB :=
  { events := [⟨1, "X", EventStatus.ASSIGNED, 0⟩],
    receivers := [⟨1, 1, some 2, none⟩],
    users := [⟨1, "a", "a@x", false⟩, ⟨9, "n", "n@x", false⟩] }

/-- A draft event with no participants. -/
def dbDraftEmpty : DB :=
  { events := [⟨1, "X", EventStatus.DRAFT, 0⟩], receivers := [], users := [] }

/-- A draft event with one participant. -/
def dbDraftOne : DB :=
  { events := [⟨1, "X", EventStatus.DRAFT, 0⟩],
    receivers := [⟨1, 1, none, none⟩],
    users := [⟨1, "a", "a@x", false⟩] }

/-- An open event with no participants. -/
def dbOpenEmpty : DB :=
  { events := [⟨1, "X", EventStatus.OPEN, 0⟩], receivers := [], users := [] }

/-- A closed event with one assigned participant row. -/
def dbClosedAssigned : DB :=
  { events := [⟨1, "X", EventStatus.CLOSED, 0⟩],
    receivers := [⟨1, 1, some 2, none⟩, ⟨2, 1, some 1, none⟩],
    users := [] }

/-!
## Lifecycle lemmas
-/

theorem find?_setEventStatus (es : List EventRec) (eventId : Int) (s : EventStatus) :
    (setEventStatus es eventId s).find? (fun e => e.id == eventId) =
      (es.find? (fun e => e.id == eventId)).map (fun e => { e with status := s }) := by
  induction es with
  | nil => simp [setEventStatus]
  | cons e es ih =>
    by_cases h : e.id = eventId
    · simp [setEventStatus, List.find?_cons, h]
    · have hb : (e.id == eventId) = false := by simp [h]
      simp [setEventStatus, List.find?_cons, hb, ih]

theorem eventStatus_after_set (db : DB) (eventId : Int) (s : EventStatus) (e : EventRec)
    (h : findEvent db eventId = some e) :
    eventStatus { db with events := setEventStatus db.events eventId s } eventId = some s := by
  have h' : db.events.find? (fun e => e.id == eventId) = some e := h
  show ((setEventStatus db.events eventId s).find? (fun e => e.id == eventId)).map
      (fun e => e.status) = some s
  rw [find?_setEventStatus, h']
  rfl

/-- C7: `check_and_update_event_status` performs the automatic
`Draft → Open` transition exactly when warranted: a `Draft` event with no
participants stays `Draft` with result `false`; a `Draft` event with at
least one participant becomes `Open` with result `true`; an `Open` event is
never transitioned (in particular never to `Assigned`). -/
theorem draft_open_transition_correct (db : DB) (eventId : Int) (e : EventRec)
    (hfind : findEvent db eventId = some e) :
    (e.status = EventStatus.DRAFT → (participantsOf db eventId).length = 0 →
      checkAndUpdateEventStatus db eventId = (false, db)) ∧
    (e.status = EventStatus.DRAFT → 1 ≤ (participantsOf db eventId).length →
      checkAndUpdateEventStatus db eventId =
        (true, { db with events := setEventStatus db.events eventId EventStatus.OPEN }) ∧
      eventStatus (checkAndUpdateEventStatus db eventId).2 eventId = some EventStatus.OPEN) ∧
    (e.status = EventStatus.OPEN → checkAndUpdateEventStatus db eventId = (false, db)) := by
  refine ⟨?_, ?_, ?_⟩
  · intro hs hlen
    simp [checkAndUpdateEventStatus, hfind, hs, hlen]
  · intro hs hlen
    have hpos : 0 < (participantsOf db eventId).length := hlen
    have hres : checkAndUpdateEventStatus db eventId =
        (true, { db with events := setEventStatus db.events eventId EventStatus.OPEN }) := by
      simp [checkAndUpdateEventStatus, hfind, hs, hpos]
    exact ⟨hres, by rw [hres]; exact eventStatus_after_set db eventId _ e hfind⟩
  · intro hs
    simp [checkAndUpdateEventStatus, hfind, hs]

theorem draft_open_transition_correct_witness :
    checkAndUpdateEventStatus dbDraftOne 1 =
      (true, { dbDraftOne with events := setEventStatus dbDraftOne.events 1 EventStatus.OPEN }) ∧
    checkAndUpdateEventStatus dbDraftEmpty 1 = (false, dbDraftEmpty) :=
  ⟨((draft_open_transition_correct dbDraftOne 1 ⟨1, "X", EventStatus.DRAFT, 0⟩
      (by decide)).2.1 rfl (by decide)).1,
   (draft_open_transition_correct dbDraftEmpty 1 ⟨1, "X", EventStatus.DRAFT, 0⟩
      (by decide)).1 rfl (by decide)⟩

/-- C10: on an event whose status is `Open`, `Assigned` or `Closed`, and on
a nonexistent event id, `check_and_update_event_status` returns `false` and
leaves the state unchanged, regardless of the participant count. -/
theorem check_status_frame (db : DB) (eventId : Int)
    (h : eventStatus db eventId = some EventStatus.OPEN ∨
         eventStatus db eventId = some EventStatus.ASSIGNED ∨
         eventStatus db eventId = some EventStatus.CLOSED ∨
         eventStatus db eventId = none) :
    checkAndUpdateEventStatus db eventId = (false, db) := by
  cases hfind : findEvent db eventId with
  | none => simp [checkAndUpdateEventStatus, hfind]
  | some e =>
    have hs : e.status ≠ EventStatus.DRAFT := by
      rcases h with h | h | h | h <;> simp [eventStatus, hfind] at h <;> simp [h]
    simp [checkAndUpdateEventStatus, hfind, hs]

theorem check_status_frame_witness :
    checkAndUpdateEventStatus dbOpenEmpty 1 = (false, dbOpenEmpty) :=
  check_status_frame dbOpenEmpty 1 (Or.inl (by decide))

/-- C8: `reopen_event` on a `Closed` event sets the status to `Assigned` if
some receiver row of the event has a non-null gifter and to `Open`
otherwise; on any other status it leaves the state unchanged; and it never
modifies receiver rows. -/
theorem reopen_event_correct (db : DB) (eventId : Int) (e : EventRec)
    (hfind : findEvent db eventId = some e) :
    (e.status = EventStatus.CLOSED →
      ((∃ r ∈ db.receivers, r.event_id = eventId ∧ r.gifter_id.isSome) →
        eventStatus (reopenEvent db eventId) eventId = some EventStatus.ASSIGNED) ∧
      ((¬ ∃ r ∈ db.receivers, r.event_id = eventId ∧ r.gifter_id.isSome) →
        eventStatus (reopenEvent db eventId) eventId = some EventStatus.OPEN)) ∧
    (e.status ≠ EventStatus.CLOSED → reopenEvent db eventId = db) ∧
    (reopenEvent db eventId).receivers = db.receivers := by
  have hmem : (db.receivers.filter
      (fun r => r.event_id == eventId && r.gifter_id.isSome)).isEmpty = true ↔
      ¬ ∃ r ∈ db.receivers, r.event_id = eventId ∧ r.gifter_id.isSome := by
    rw [List.isEmpty_iff, List.filter_eq_nil_iff]
    constructor
    · rintro hall ⟨r, hr, h1, h2⟩
      have := hall r hr
      simp only [Bool.and_eq_true, beq_iff_eq, not_and] at this
      exact absurd h2 (by simp [this h1])
    · intro hno r hr
      simp only [Bool.and_eq_true, beq_iff_eq, not_and]
      intro h1 h2
      exact hno ⟨r, hr, h1, h2⟩
  refine ⟨fun hs => ⟨fun hex => ?_, fun hno => ?_⟩, fun hs => ?_, ?_⟩
  · have hne : (db.receivers.filter
        (fun r => r.event_id == eventId && r.gifter_id.isSome)).isEmpty = false := by
      cases hE : (db.receivers.filter
          (fun r => r.event_id == eventId && r.gifter_id.isSome)).isEmpty
      · rfl
      · exact absurd hex (hmem.mp hE)
    simp only [reopenEvent, hfind, hs]
    simp [hne, eventStatus_after_set db eventId _ e hfind]
  · have hE : (db.receivers.filter
        (fun r => r.event_id == eventId && r.gifter_id.isSome)).isEmpty = true :=
      hmem.mpr hno
    simp only [reopenEvent, hfind, hs]
    simp [hE, eventStatus_after_set db eventId _ e hfind]
  · simp [reopenEvent, hfind, hs]
  · simp only [reopenEvent]
    cases hfind' : findEvent db eventId with
    | none => rfl
    | some e' =>
      by_cases hs : e'.status = EventStatus.CLOSED
      · simp only [hs]
        cases (db.receivers.filter
            (fun r => r.event_id == eventId && r.gifter_id.isSome)).isEmpty <;> simp
      · simp [hs]

theorem reopen_event_correct_witness :
    eventStatus (reopenEvent dbClosedAssigned 1) 1 = some EventStatus.ASSIGNED ∧
    eventStatus (reopenEvent dbClosedTwo 1) 1 = some EventStatus.OPEN :=
  ⟨((reopen_event_correct dbClosedAssigned 1 ⟨1, "X", EventStatus.CLOSED, 0⟩
      (by decide)).1 rfl).1 (by decide),
   ((reopen_event_correct dbClosedTwo 1 ⟨1, "X", EventStatus.CLOSED, 0⟩
      (by decide)).1 rfl).2 (by decide)⟩

/-!
## History resolution: explicit mode (C9)
-/

theorem mem_addHistoryPair (forb : List (Int × Int)) (row : ReceiverRec) (g r : Int) :
    (g, r) ∈ addHistoryPair forb row ↔
      (g, r) ∈ forb ∨ (row.gifter_id = some g ∧ row.user_id = r) := by
  cases hg : row.gifter_id with
  | none => simp [addHistoryPair, hg]
  | some g' =>
    simp only [addHistoryPair, hg, List.mem_append, List.mem_singleton, Prod.mk.injEq,
      Option.some.injEq]
    constructor
    · rintro (h | ⟨h1, h2⟩)
      · exact Or.inl h
      · exact Or.inr ⟨h1.symm, h2.symm⟩
    · rintro (h | ⟨h1, h2⟩)
      · exact Or.inl h
      · exact Or.inr ⟨h1.symm, h2.symm⟩

theorem mem_foldl_addHistoryPair (rows : List ReceiverRec) (init : List (Int × Int))
    (g r : Int) :
    (g, r) ∈ rows.foldl addHistoryPair init ↔
      (g, r) ∈ init ∨ ∃ row ∈ rows, row.gifter_id = some g ∧ row.user_id = r := by
  induction rows generalizing init with
  | nil => simp
  | cons row rows ih =>
    have hsplit : (∃ row' ∈ row :: rows, row'.gifter_id = some g ∧ row'.user_id = r) ↔
        ((row.gifter_id = some g ∧ row.user_id = r) ∨
          ∃ row' ∈ rows, row'.gifter_id = some g ∧ row'.user_id = r) := by
      constructor
      · rintro ⟨x, hx, hP⟩
        rcases List.mem_cons.mp hx with h | h
        · exact Or.inl (h ▸ hP)
        · exact Or.inr ⟨x, h, hP⟩
      · rintro (h | ⟨x, hx, hP⟩)
        · exact ⟨row, List.mem_cons_self _ _, h⟩
        · exact ⟨x, List.mem_cons_of_mem _ hx, hP⟩
    rw [List.foldl_cons, ih, mem_addHistoryPair, hsplit, or_assoc]

/-- C9: in explicit history mode the forbidden-pair set is exactly the
pairs with non-null gifter recorded in rows of the supplied event ids (no
recency limit, no name matching); with an explicit empty list it is empty,
so the unset / empty / populated caller states are distinguished. -/
theorem explicit_history_resolution (db : DB) (eventId : Int) (name : String)
    (l : List Int) (g r : Int) :
    ((g, r) ∈ resolveForbiddenPairs db eventId name (some l) ↔
      ∃ row ∈ db.receivers, row.event_id ∈ l ∧ row.gifter_id = some g ∧ row.user_id = r) ∧
    resolveForbiddenPairs db eventId name (some []) = [] := by
  constructor
  · cases l with
    | nil => simp [resolveForbiddenPairs]
    | cons a as =>
      have hres : resolveForbiddenPairs db eventId name (some (a :: as)) =
          buildExplicitForbidden db (a :: as) := by
        simp [resolveForbiddenPairs]
      rw [hres, buildExplicitForbidden, mem_foldl_addHistoryPair]
      simp only [List.not_mem_nil, false_or, List.mem_filter, Bool.and_eq_true]
      constructor
      · rintro ⟨row, ⟨hrow, hc, _⟩, h1, h2⟩
        exact ⟨row, hrow, List.elem_iff.mp hc, h1, h2⟩
      · rintro ⟨row, hrow, hc, h1, h2⟩
        exact ⟨row, ⟨hrow, List.elem_iff.mpr hc, by simp [h1]⟩, h1, h2⟩
  · rfl

theorem explicit_history_resolution_witness :
    (5, 7) ∈ resolveForbiddenPairs dbHistorySkip 0 "X" (some [2]) ∧
    resolveForbiddenPairs dbHistorySkip 0 "X" (some []) = [] :=
  ⟨(explicit_history_resolution dbHistorySkip 0 "X" [2] 5 7).1.mpr
      ⟨⟨7, 2, some 5, none⟩, by decide, by decide, rfl, rfl⟩,
   (explicit_history_resolution dbHistorySkip 0 "X" [] 5 7).2⟩

/-!
## Manual assignment validation (C2)
-/

theorem nodup_of_toFinset_card_eq_length {l : List Int}
    (h : l.toFinset.card = l.length) : l.Nodup := by
  rw [List.card_toFinset] at h
  have := (List.dedup_sublist l).eq_of_length h
  rw [← List.dedup_eq_self]
  exact this

theorem count_fst_eq_filter_length (pairs : List (Int × Int)) (x : Int) :
    (pairs.map (fun p => p.1)).count x = (pairs.filter (fun p => p.1 == x)).length := by
  rw [List.count, List.countP_map, ← List.countP_eq_length_filter]
  rfl

/-- C2: the manual-assignment validation accepts a proposed pair list iff it
is a complete, self-pairing-free bijection over the participant set: the
recipients are exactly the participant set, every gifter is a participant,
no pair is a self-pair, and every participant is a gifter in exactly one
pair.  The validation reads no history, so forbidden pairs play no role. -/
theorem manual_validation_iff (pids : List Int) (pairs : List (Int × Int)) :
    validateManualAssignment pids pairs = true ↔
      ((pairs.map (fun p => p.2)).toFinset = pids.toFinset ∧
       (∀ p ∈ pairs, p.1 ∈ pids.toFinset) ∧
       (∀ p ∈ pairs, p.1 ≠ p.2) ∧
       (∀ x ∈ pids.toFinset, (pairs.filter (fun p => p.1 == x)).length = 1)) := by
  simp only [validateManualAssignment, Bool.and_eq_true, decide_eq_true_eq,
    List.all_eq_true, bne_iff_ne, ne_eq, beq_iff_eq]
  constructor
  · rintro ⟨⟨⟨hA, hB⟩, hC⟩, hD⟩
    have hnd : (pairs.map (fun p => p.1)).Nodup :=
      nodup_of_toFinset_card_eq_length (by rw [hD, List.length_map])
    have hcard1 : pids.toFinset.card ≤ pairs.length := by
      rw [← hA]
      calc (pairs.map (fun p => p.2)).toFinset.card
          ≤ (pairs.map (fun p => p.2)).length := List.toFinset_card_le _
        _ = pairs.length := List.length_map _ _
    have hgsub : (pairs.map (fun p => p.1)).toFinset ⊆ pids.toFinset := hB
    have hgeq : (pairs.map (fun p => p.1)).toFinset = pids.toFinset :=
      Finset.eq_of_subset_of_card_le hgsub (by rw [hD]; exact hcard1)
    refine ⟨hA, ?_, hC, ?_⟩
    · intro p hp
      exact hB (List.mem_toFinset.mpr (List.mem_map_of_mem _ hp))
    · intro x hx
      have hxg : x ∈ pairs.map (fun p => p.1) :=
        List.mem_toFinset.mp (hgeq ▸ hx)
      rw [← count_fst_eq_filter_length]
      exact List.count_eq_one_of_mem hnd hxg
  · rintro ⟨hA, hB, hC, hD⟩
    have hnd : (pairs.map (fun p => p.1)).Nodup := by
      rw [List.nodup_iff_count_le_one]
      intro a
      by_cases ha : a ∈ pairs.map (fun p => p.1)
      · rcases List.mem_map.mp ha with ⟨p, hp, hpa⟩
        have : a ∈ pids.toFinset := hpa ▸ hB p hp
        rw [count_fst_eq_filter_length, hD a this]
      · rw [List.count_eq_zero.mpr ha]
        exact Nat.zero_le 1
    refine ⟨⟨⟨hA, ?_⟩, hC⟩, ?_⟩
    · intro x hx
      rcases List.mem_map.mp (List.mem_toFinset.mp hx) with ⟨p, hp, hpa⟩
      exact hpa ▸ hB p hp
    · rw [List.toFinset_card_of_nodup hnd, List.length_map]

theorem manual_validation_iff_witness :
    validateManualAssignment [1, 2, 3] [(1, 2), (2, 3), (3, 1)] = true :=
  (manual_validation_iff [1, 2, 3] [(1, 2), (2, 3), (3, 1)]).mpr
    ⟨by decide, by decide, by decide, by decide⟩

/-!
## Frozen-event operations (C6)
-/

/-- C6 counterexample: on an `ASSIGNED` event the admin add-participant
route is not rejected — it changes the participant set. -/
theorem frozen_event_counterexample :
    eventStatus dbAssignedOne 1 = some EventStatus.ASSIGNED ∧
    (addParticipantToEvent dbAssignedOne 1 9).1 = true ∧
    (addParticipantToEvent dbAssignedOne 1 9).2.receivers ≠ dbAssignedOne.receivers := by
  decide

/-- C6 (amended): on an `Assigned`/`Closed` event the user join, leave and
message-update routes and the admin remove-participant route are rejected
without state change; the admin add-participant and admin message-update
routes are not status-gated and can change state even on an `Assigned`
event. -/
theorem frozen_event_operations (db : DB) (eventId userId : Int) (msg : Option String)
    (h : eventStatus db eventId = some EventStatus.ASSIGNED ∨
         eventStatus db eventId = some EventStatus.CLOSED) :
    joinEvent db userId eventId msg = (false, db) ∧
    leaveEvent db userId eventId = (false, db) ∧
    updateMessage db userId eventId msg = (false, db) ∧
    removeParticipantFromEvent db eventId userId = (false, db) ∧
    (∃ db' eid uid, eventStatus db' eid = some EventStatus.ASSIGNED ∧
      (addParticipantToEvent db' eid uid).2.receivers ≠ db'.receivers) ∧
    (∃ db' eid uid m, eventStatus db' eid = some EventStatus.ASSIGNED ∧
      (adminUpdateParticipantMessage db' eid uid m).2.receivers ≠ db'.receivers) := by
  have hex1 : ∃ db' eid uid, eventStatus db' eid = some EventStatus.ASSIGNED ∧
      (addParticipantToEvent db' eid uid).2.receivers ≠ db'.receivers :=
    ⟨dbAssignedOne, 1, 9, by decide⟩
  have hex2 : ∃ db' eid uid m, eventStatus db' eid = some EventStatus.ASSIGNED ∧
      (adminUpdateParticipantMessage db' eid uid m).2.receivers ≠ db'.receivers :=
    ⟨dbAssignedOne, 1, 1, some ("m"), by decide⟩
  have hstat : ∃ e, findEvent db eventId = some e ∧
      (e.status = EventStatus.ASSIGNED ∨ e.status = EventStatus.CLOSED) := by
    rcases h with h | h
    · rcases Option.map_eq_some'.mp h with ⟨e, he, hst⟩
      exact ⟨e, he, Or.inl hst⟩
    · rcases Option.map_eq_some'.mp h with ⟨e, he, hst⟩
      exact ⟨e, he, Or.inr hst⟩
  rcases hstat with ⟨e, hf, hs⟩
  have hjoin : joinEvent db userId eventId msg = (false, db) := by
    rcases hs with hs | hs <;> simp [joinEvent, hf, hs]
  have hleave : leaveEvent db userId eventId = (false, db) := by
    rcases hs with hs | hs <;> simp [leaveEvent, hf, hs]
  have hupd : updateMessage db userId eventId msg = (false, db) := by
    rcases hs with hs | hs <;> simp [updateMessage, hf, hs]
  have hrem : removeParticipantFromEvent db eventId userId = (false, db) := by
    rcases hs with hs | hs <;> simp [removeParticipantFromEvent, hf, hs]
  exact ⟨hjoin, hleave, hupd, hrem, hex1, hex2⟩

theorem frozen_event_operations_witness :
    joinEvent dbAssignedOne 9 1 none = (false, dbAssignedOne) ∧
    leaveEvent dbAssignedOne 1 1 = (false, dbAssignedOne) :=
  ⟨(frozen_event_operations dbAssignedOne 1 9 none (Or.inl (by decide))).1,
   (frozen_event_operations dbAssignedOne 1 1 none (Or.inl (by decide))).2.1⟩

/-!
## Assignment triggers are not status-gated (C3)
-/

/-- C3 counterexample: an assignment trigger on a `CLOSED` (hence
non-`Open`) event is not rejected — it succeeds, writes gifters and sets
the status to `ASSIGNED`. -/
theorem assignment_status_gate_counterexample :
    eventStatus dbClosedTwo 1 = some EventStatus.CLOSED ∧
    (assignEvent dbClosedTwo 1 none ordTwo).1 = true ∧
    eventStatus (assignEvent dbClosedTwo 1 none ordTwo).2 1 = some EventStatus.ASSIGNED ∧
    (assignEvent dbClosedTwo 1 none ordTwo).2.receivers ≠ dbClosedTwo.receivers := by
  decide

/-- C3 (amended): the assignment triggers check no event status: on any
existing event with at least two participants — whatever its status — the
automatic trigger succeeds whenever the search succeeds, and the manual
trigger succeeds whenever validation passes; in both cases the status is
set to `ASSIGNED`. -/
theorem assignment_trigger_ungated (db : DB) (eventId : Int)
    (histIds : Option (List Int)) (order : List Int → List Nat)
    (pairs : List (Int × Int)) (e : EventRec)
    (hfind : findEvent db eventId = some e)
    (hlen : 2 ≤ (participantsOf db eventId).length) :
    (∀ asg, findValidAssignment ((participantsOf db eventId).map (fun p => p.user_id))
        (resolveForbiddenPairs db eventId e.event_name histIds) order = some asg →
      (assignEvent db eventId histIds order).1 = true ∧
      eventStatus (assignEvent db eventId histIds order).2 eventId =
        some EventStatus.ASSIGNED) ∧
    (validateManualAssignment ((participantsOf db eventId).map (fun p => p.user_id))
        pairs = true →
      (assignEventManually db eventId pairs).1 = true ∧
      eventStatus (assignEventManually db eventId pairs).2 eventId =
        some EventStatus.ASSIGNED) := by
  have hnl : ¬ (participantsOf db eventId).length < 2 := by omega
  constructor
  · intro asg hasg
    have hs : assignSecretSanta db eventId (participantsOf db eventId) histIds order =
        (true, { db with receivers :=
          (applyAssignment db.receivers eventId ((participantsOf db eventId).zip asg)) }) := by
      simp only [assignSecretSanta, hfind, hasg, if_neg hnl]
    have hres : assignEvent db eventId histIds order =
        (true, { db with
          receivers :=
            (applyAssignment db.receivers eventId ((participantsOf db eventId).zip asg)),
          events := setEventStatus db.events eventId EventStatus.ASSIGNED }) := by
      simp only [assignEvent, hfind, if_neg hnl, hs]
    rw [hres]
    exact ⟨rfl, eventStatus_after_set
      { db with receivers :=
        (applyAssignment db.receivers eventId ((participantsOf db eventId).zip asg)) }
      eventId EventStatus.ASSIGNED e hfind⟩
  · intro hval
    have hres : assignEventManually db eventId pairs =
        (true, { db with
          events := setEventStatus db.events eventId EventStatus.ASSIGNED,
          receivers := applyManualPairs db.receivers eventId pairs }) := by
      simp only [assignEventManually, hfind, if_neg hnl, hval, Bool.not_true,
        Bool.false_eq_true, if_false]
    rw [hres]
    exact ⟨rfl, eventStatus_after_set
      { db with receivers := applyManualPairs db.receivers eventId pairs }
      eventId EventStatus.ASSIGNED e hfind⟩

theorem assignment_trigger_ungated_witness :
    (assignEvent dbClosedTwo 1 none ordTwo).1 = true ∧
    eventStatus (assignEvent dbClosedTwo 1 none ordTwo).2 1 = some EventStatus.ASSIGNED :=
  (assignment_trigger_ungated dbClosedTwo 1 none ordTwo []
    ⟨1, "X", EventStatus.CLOSED, 0⟩ (by decide) (by decide)).1 [2, 1] (by decide)

/-!
## Backtracking search: soundness (C1)
-/

theorem getD_replicate_false (n i : Nat) : (List.replicate n false).getD i false = false := by
  by_cases h : i < n
  · rw [List.getD_eq_getElem _ _ (by simpa using h)]
    exact List.getElem_replicate ..
  · rw [List.getD_eq_default]
    simpa using Nat.le_of_not_lt h

theorem getD_set_self (l : List Bool) (i : Nat) (h : i < l.length) :
    (l.set i true).getD i false = true := by
  rw [List.getD_eq_getElem _ _ (by simpa using h)]
  simp [List.getElem_set, h]

theorem getD_set_ne (l : List Bool) (i j : Nat) (h : i ≠ j) :
    (l.set i true).getD j false = l.getD j false := by
  simp [List.getD, List.getElem?_set_ne h]

theorem perm_range_of_nodup_lt (l : List Nat) (n : Nat) (h1 : l.Nodup)
    (h2 : ∀ i ∈ l, i < n) (h3 : l.length = n) : l.Perm (List.range n) := by
  have hsub : l ⊆ List.range n := fun i hi => List.mem_range.mpr (h2 i hi)
  exact (List.subperm_of_subset h1 hsub).perm_of_length_le (by simp [h3])

theorem searchInv_init (ids : List Int) (forb : List (Int × Int)) :
    SearchInv ids forb [] (List.replicate ids.length false) [] := by
  refine ⟨List.length_replicate _ _, rfl, List.nodup_nil, ?_, ?_, ?_, ?_, ?_⟩
  · intro i h; cases h
  · intro i
    rw [getD_replicate_false]
    simp
  · intro j hj; cases hj
  · intro j hj; cases hj
  · intro j hj; cases hj

theorem searchInv_extend (ids : List Int) (forb : List (Int × Int))
    (acc : List Int) (used : List Bool) (idxs : List Nat) (idx : Nat)
    (inv : SearchInv ids forb acc used idxs)
    (hacc : acc.length < ids.length)
    (hidx : idx < ids.length)
    (hunused : used.getD idx false = false)
    (hself : ids.getD acc.length 0 ≠ ids.getD idx 0)
    (hforb : (ids.getD acc.length 0, ids.getD idx 0) ∉ forb) :
    SearchInv ids forb (acc ++ [ids.getD idx 0]) (used.set idx true) (idxs ++ [idx]) := by
  have hnotmem : idx ∉ idxs := by
    intro hmem
    rw [(inv.used_iff idx).mpr hmem] at hunused
    cases hunused
  have hlen_acc : (acc ++ [ids.getD idx 0]).length = acc.length + 1 := by simp
  have hlen_idxs : (idxs ++ [idx]).length = idxs.length + 1 := by simp
  refine ⟨?_, ?_, ?_, ?_, ?_, ?_, ?_, ?_⟩
  · rw [List.length_set]; exact inv.used_len
  · rw [hlen_acc, hlen_idxs, inv.idxs_len]
  · rw [List.nodup_append]
    exact ⟨inv.idxs_nodup, List.nodup_singleton idx,
      fun a ha hb => by rw [List.mem_singleton] at hb; exact hnotmem (hb ▸ ha)⟩
  · intro i hi
    rcases List.mem_append.mp hi with h | h
    · exact inv.idxs_lt i h
    · rw [List.mem_singleton] at h; exact h ▸ hidx
  · intro i
    by_cases hi : idx = i
    · subst hi
      rw [getD_set_self used idx (by rw [inv.used_len]; exact hidx)]
      simp
    · rw [getD_set_ne used idx i hi, inv.used_iff i]
      constructor
      · exact fun h => List.mem_append.mpr (Or.inl h)
      · intro h
        rcases List.mem_append.mp h with h | h
        · exact h
        · rw [List.mem_singleton] at h
          exact absurd h.symm hi
  · intro j hj
    rw [hlen_acc] at hj
    by_cases hj' : j < acc.length
    · rw [List.getD_append _ _ _ _ hj',
        List.getD_append _ _ _ _ (by rw [inv.idxs_len]; exact hj')]
      exact inv.acc_eq j hj'
    · have hje : j = acc.length := by omega
      subst hje
      rw [List.getD_append_right _ _ _ _ (le_refl _),
        List.getD_append_right _ _ _ _ (by rw [inv.idxs_len])]
      simp [inv.idxs_len]
  · intro j hj
    rw [hlen_acc] at hj
    by_cases hj' : j < acc.length
    · rw [List.getD_append _ _ _ _ hj']
      exact inv.no_self j hj'
    · have hje : j = acc.length := by omega
      subst hje
      rw [List.getD_append_right _ _ _ _ (le_refl _)]
      simpa using hself.symm
  · intro j hj
    rw [hlen_acc] at hj
    by_cases hj' : j < acc.length
    · rw [List.getD_append _ _ _ _ hj']
      exact inv.not_forb j hj'
    · have hje : j = acc.length := by omega
      subst hje
      rw [List.getD_append_right _ _ _ _ (le_refl _)]
      simpa using hforb

theorem searchInv_final (ids : List Int) (forb : List (Int × Int))
    (acc : List Int) (used : List Bool) (idxs : List Nat)
    (inv : SearchInv ids forb acc used idxs) (hfull : acc.length = ids.length) :
    SearchSound ids forb acc := by
  have hperm : idxs.Perm (List.range ids.length) :=
    perm_range_of_nodup_lt idxs ids.length inv.idxs_nodup inv.idxs_lt
      (by rw [inv.idxs_len, hfull])
  exact ⟨hfull, ⟨idxs, hperm, fun j hj => inv.acc_eq j (hfull ▸ hj)⟩,
    fun j hj => ⟨inv.no_self j (hfull ▸ hj), inv.not_forb j (hfull ▸ hj)⟩⟩

theorem santaTry_sound (ids : List Int) (forb : List (Int × Int))
    (next : List Int → List Bool → Option (List Int))
    (acc : List Int) (used : List Bool) (idxs : List Nat)
    (inv : SearchInv ids forb acc used idxs) (hlt : acc.length < ids.length)
    (Hnext : ∀ acc' used', acc'.length = acc.length + 1 →
      (∃ idxs', SearchInv ids forb acc' used' idxs') →
      ∀ res, next acc' used' = some res → SearchSound ids forb res) :
    ∀ cands : List Nat, (∀ i ∈ cands, i < ids.length) →
      ∀ res, santaTry ids forb next acc used cands = some res →
      SearchSound ids forb res := by
  intro cands
  induction cands with
  | nil => intro _ res h; simp [santaTry] at h
  | cons idx rest ih =>
    intro hbound res h
    simp only [santaTry] at h
    by_cases hcond : (used.getD idx false || ids.getD acc.length 0 == ids.getD idx 0 ||
        decide ((ids.getD acc.length 0, ids.getD idx 0) ∈ forb)) = true
    · rw [if_pos hcond] at h
      exact ih (fun i hi => hbound i (List.mem_cons_of_mem _ hi)) res h
    · rw [if_neg hcond] at h
      have hsplit := hcond
      simp only [Bool.or_eq_true, not_or, Bool.not_eq_true, beq_eq_false_iff_ne, ne_eq,
        decide_eq_true_eq] at hsplit
      obtain ⟨⟨hunused, hself⟩, hforb⟩ := hsplit
      cases hn : next (acc ++ [ids.getD idx 0]) (used.set idx true) with
      | some r =>
        rw [hn] at h
        have hres : r = res := by simpa using h
        subst hres
        exact Hnext _ _ (by simp)
          ⟨idxs ++ [idx], searchInv_extend ids forb acc used idxs idx inv hlt
            (hbound idx (List.mem_cons_self _ _)) hunused hself (by simpa using hforb)⟩
          r hn
      | none =>
        rw [hn] at h
        exact ih (fun i hi => hbound i (List.mem_cons_of_mem _ hi)) res h

theorem santaGo_sound (ids : List Int) (forb : List (Int × Int))
    (order : List Int → List Nat) (hb : OrderBounded ids order) :
    ∀ (fuel : Nat) (acc : List Int) (used : List Bool) (idxs : List Nat),
      SearchInv ids forb acc used idxs → fuel + acc.length = ids.length →
      ∀ res, santaGo ids forb order fuel acc used = some res →
      SearchSound ids forb res := by
  intro fuel
  induction fuel with
  | zero =>
    intro acc used idxs inv hlen res h
    have hres : acc = res := by simpa [santaGo] using h
    subst hres
    exact searchInv_final ids forb acc used idxs inv (by omega)
  | succ k ih =>
    intro acc used idxs inv hlen res h
    simp only [santaGo] at h
    exact santaTry_sound ids forb _ acc used idxs inv (by omega)
      (fun acc' used' hlen' hinv' res' h' => by
        rcases hinv' with ⟨idxs', hinv'⟩
        exact ih acc' used' idxs' hinv' (by omega) res' h')
      (order acc) (hb acc) res h

theorem findValidAssignment_sound (ids : List Int) (forb : List (Int × Int))
    (order : List Int → List Nat) (hb : OrderBounded ids order)
    (res : List Int) (h : findValidAssignment ids forb order = some res) :
    SearchSound ids forb res :=
  santaGo_sound ids forb order hb ids.length [] (List.replicate ids.length false) []
    (searchInv_init ids forb) (by simp) res h

theorem searchSound_perm (ids : List Int) (forb : List (Int × Int)) (res : List Int)
    (hs : SearchSound ids forb res) : res.Perm ids := by
  obtain ⟨hlen, ⟨idxs, hperm, hvals⟩, _⟩ := hs
  have hidlen : idxs.length = ids.length := by
    rw [hperm.length_eq, List.length_range]
  have hres : res = idxs.map (fun i => ids.getD i 0) := by
    apply List.ext_getElem (by simp [hlen, hidlen])
    intro j h1 h2
    have hj : j < ids.length := by rw [← hlen]; exact h1
    rw [List.getElem_map, ← List.getD_eq_getElem res 0 h1, hvals j hj]
    congr 1
    rw [List.getD_eq_getElem idxs 0 (by rw [hidlen]; exact hj)]
  have hrange : (List.range ids.length).map (fun i => ids.getD i 0) = ids := by
    apply List.ext_getElem (by simp)
    intro j h1 h2
    rw [List.getElem_map, List.getElem_range, List.getD_eq_getElem ids 0 h2]
  have hmap := hperm.map (fun i => ids.getD i 0)
  rw [hrange] at hmap
  rw [hres]
  exact hmap

/-- C1: whenever the backtracking search returns an assignment, it is a
permutation of the participant list (a bijection onto the participant set
when the ids are distinct: every participant is a recipient exactly once),
no position's recipient equals its gifter, and no position's
(gifter, recipient) pair is forbidden. -/
theorem search_result_valid (ids : List Int) (forb : List (Int × Int))
    (order : List Int → List Nat) (res : List Int)
    (hb : OrderBounded ids order)
    (h : findValidAssignment ids forb order = some res) :
    res.length = ids.length ∧ res.Perm ids ∧
    (∀ j, j < ids.length →
      res.getD j 0 ≠ ids.getD j 0 ∧ (ids.getD j 0, res.getD j 0) ∉ forb) ∧
    (ids.Nodup → ∀ x ∈ ids, res.count x = 1) := by
  have hs := findValidAssignment_sound ids forb order hb res h
  have hperm := searchSound_perm ids forb res hs
  exact ⟨hs.1, hperm, hs.2.2,
    fun hnd x hx => by rw [hperm.count_eq]; exact List.count_eq_one_of_mem hnd hx⟩

theorem search_result_valid_witness :
    ([2, 3, 1] : List Int).length = ([1, 2, 3] : List Int).length ∧
    ([2, 3, 1] : List Int).Perm [1, 2, 3] ∧
    (∀ j, j < ([1, 2, 3] : List Int).length →
      ([2, 3, 1] : List Int).getD j 0 ≠ ([1, 2, 3] : List Int).getD j 0 ∧
      (([1, 2, 3] : List Int).getD j 0, ([2, 3, 1] : List Int).getD j 0) ∉
        ([] : List (Int × Int))) ∧
    (([1, 2, 3] : List Int).Nodup → ∀ x ∈ ([1, 2, 3] : List Int),
      ([2, 3, 1] : List Int).count x = 1) :=
  search_result_valid [1, 2, 3] [] (fun _ => [0, 1, 2]) [2, 3, 1]
    (by
      intro _ i hi
      simp only [List.mem_cons, List.not_mem_nil, or_false] at hi
      rcases hi with h | h | h <;> simp [h])
    (by decide)

/-!
## Backtracking search: completeness and stability of infeasibility (C5)
-/

theorem santaTry_complete (ids : List Int) (forb : List (Int × Int))
    (next : List Int → List Bool → Option (List Int))
    (acc : List Int) (used : List Bool) (r₀ : Nat)
    (hpass : (used.getD r₀ false || ids.getD acc.length 0 == ids.getD r₀ 0 ||
      decide ((ids.getD acc.length 0, ids.getD r₀ 0) ∈ forb)) = false)
    (Hr : (next (acc ++ [ids.getD r₀ 0]) (used.set r₀ true)).isSome) :
    ∀ cands : List Nat, r₀ ∈ cands →
      (santaTry ids forb next acc used cands).isSome := by
  intro cands
  induction cands with
  | nil => intro h; cases h
  | cons c cs ih =>
    intro hmem
    simp only [santaTry]
    by_cases hc : (used.getD c false || ids.getD acc.length 0 == ids.getD c 0 ||
        decide ((ids.getD acc.length 0, ids.getD c 0) ∈ forb)) = true
    · rw [if_pos hc]
      have hne : c ≠ r₀ := by
        intro he
        rw [he, hpass] at hc
        cases hc
      rcases List.mem_cons.mp hmem with h | h
      · exact absurd h.symm hne
      · exact ih h
    · rw [if_neg hc]
      cases hn : next (acc ++ [ids.getD c 0]) (used.set c true) with
      | some r => simp
      | none =>
        have hne : c ≠ r₀ := by
          intro he
          rw [← he] at Hr
          rw [hn] at Hr
          cases Hr
        rcases List.mem_cons.mp hmem with h | h
        · exact absurd h.symm hne
        · exact ih h

theorem santaGo_complete (ids : List Int) (forb : List (Int × Int))
    (order : List Int → List Nat) (ho : OrderComplete ids order) :
    ∀ (fuel : Nat) (acc : List Int) (used : List Bool) (idxs rest : List Nat),
      SearchInv ids forb acc used idxs → fuel + acc.length = ids.length →
      ExtendsToSolution ids forb acc idxs rest →
      (santaGo ids forb order fuel acc used).isSome := by
  intro fuel
  induction fuel with
  | zero => intro acc used idxs rest _ _ _; simp [santaGo]
  | succ k ih =>
    intro acc used idxs rest inv hlen hext
    have hlen_ir : (idxs ++ rest).length = ids.length := by
      rw [hext.1.length_eq, List.length_range]
    have hacc_lt : acc.length < ids.length := by omega
    have hrest_ne : rest ≠ [] := by
      intro h
      subst h
      rw [List.append_nil, inv.idxs_len] at hlen_ir
      omega
    obtain ⟨r₀, rest', hr⟩ := List.exists_cons_of_ne_nil hrest_ne
    subst hr
    have hnodup_ir : (idxs ++ r₀ :: rest').Nodup :=
      hext.1.symm.nodup (List.nodup_range _)
    have hr0_range : r₀ ∈ List.range ids.length :=
      hext.1.subset (List.mem_append.mpr (Or.inr (List.mem_cons_self _ _)))
    have hr0_lt : r₀ < ids.length := List.mem_range.mp hr0_range
    have hr0_notin : r₀ ∉ idxs := by
      have hdisj := (List.nodup_append.mp hnodup_ir).2.2
      intro h
      exact hdisj h (List.mem_cons_self _ _)
    have hused_r0 : used.getD r₀ false = false := by
      cases hu : used.getD r₀ false
      · rfl
      · exact absurd ((inv.used_iff r₀).mp hu) hr0_notin
    have hgetD : (idxs ++ r₀ :: rest').getD acc.length 0 = r₀ := by
      rw [List.getD_append_right _ _ _ _ (le_of_eq inv.idxs_len), inv.idxs_len,
        Nat.sub_self]
      rfl
    have hcon := hext.2 acc.length (le_refl _) hacc_lt
    rw [hgetD] at hcon
    have hbeq : (ids.getD acc.length 0 == ids.getD r₀ 0) = false :=
      beq_eq_false_iff_ne.mpr hcon.1.symm
    have hdec : decide ((ids.getD acc.length 0, ids.getD r₀ 0) ∈ forb) = false :=
      decide_eq_false hcon.2
    have hpass : (used.getD r₀ false || ids.getD acc.length 0 == ids.getD r₀ 0 ||
        decide ((ids.getD acc.length 0, ids.getD r₀ 0) ∈ forb)) = false := by
      rw [hused_r0, hbeq, hdec]
      rfl
    have hinv' := searchInv_extend ids forb acc used idxs r₀ inv hacc_lt hr0_lt
      hused_r0 hcon.1.symm hcon.2
    have hext' : ExtendsToSolution ids forb (acc ++ [ids.getD r₀ 0])
        (idxs ++ [r₀]) rest' := by
      have happ : idxs ++ [r₀] ++ rest' = idxs ++ r₀ :: rest' := by
        rw [List.append_assoc]
        rfl
      constructor
      · rw [happ]
        exact hext.1
      · intro j hj1 hj2
        rw [happ]
        apply hext.2 j _ hj2
        have : (acc ++ [ids.getD r₀ 0]).length = acc.length + 1 := by simp
        omega
    have Hr : (santaGo ids forb order k (acc ++ [ids.getD r₀ 0])
        (used.set r₀ true)).isSome :=
      ih _ _ (idxs ++ [r₀]) rest' hinv' (by simp; omega) hext'
    have hr0_ord : r₀ ∈ order acc := ((ho acc).mem_iff).mpr hr0_range
    simpa only [santaGo] using
      santaTry_complete ids forb _ acc used r₀ hpass Hr (order acc) hr0_ord

theorem findValidAssignment_complete (ids : List Int) (forb : List (Int × Int))
    (order : List Int → List Nat) (ho : OrderComplete ids order)
    (hsol : HasValidAssignment ids forb) :
    (findValidAssignment ids forb order).isSome := by
  obtain ⟨σ, hperm, hcon⟩ := hsol
  exact santaGo_complete ids forb order ho ids.length [] _ [] σ
    (searchInv_init ids forb) (by simp)
    ⟨by simpa using hperm, fun j _ hj2 => by simpa using hcon j hj2⟩

theorem hasValid_of_searchSound (ids : List Int) (forb : List (Int × Int))
    (res : List Int) (hs : SearchSound ids forb res) :
    HasValidAssignment ids forb := by
  obtain ⟨hlen, ⟨idxs, hperm, hvals⟩, hcon⟩ := hs
  exact ⟨idxs, hperm, fun j hj => by rw [← hvals j hj]; exact hcon j hj⟩

/-- C5: infeasibility does not depend on the randomness.  If one invocation
of the search (with any shuffle behaviour) returns `none`, then no valid
derangement respecting the forbidden pairs exists, and every re-invocation,
with any other shuffle behaviour, also returns `none`. -/
theorem infeasibility_stable (ids : List Int) (forb : List (Int × Int))
    (order order' : List Int → List Nat)
    (h1 : OrderComplete ids order) (h2 : OrderComplete ids order')
    (hnone : findValidAssignment ids forb order = none) :
    ¬ HasValidAssignment ids forb ∧ findValidAssignment ids forb order' = none := by
  have hno : ¬ HasValidAssignment ids forb := by
    intro hsol
    have hsome := findValidAssignment_complete ids forb order h1 hsol
    rw [hnone] at hsome
    cases hsome
  refine ⟨hno, ?_⟩
  cases hres : findValidAssignment ids forb order' with
  | none => rfl
  | some res =>
    exfalso
    have hb : OrderBounded ids order' := fun acc i hi =>
      List.mem_range.mp ((h2 acc).subset hi)
    exact hno (hasValid_of_searchSound ids forb res
      (findValidAssignment_sound ids forb order' hb res hres))

theorem infeasibility_stable_witness :
    ¬ HasValidAssignment [1, 2] [(1, 2), (2, 1)] ∧
    findValidAssignment [1, 2] [(1, 2), (2, 1)] (fun _ => [1, 0]) = none :=
  infeasibility_stable [1, 2] [(1, 2), (2, 1)] (fun _ => [0, 1]) (fun _ => [1, 0])
    (by intro acc; exact (by decide : ([0, 1] : List Nat).Perm (List.range 2)))
    (by intro acc; exact (by decide : ([1, 0] : List Nat).Perm (List.range 2)))
    (by decide)

/-!
## History resolution: default mode (C4)
-/

theorem exists_mem_cons_split {α : Type} (a : α) (l : List α) (P : α → Prop) :
    (∃ x ∈ a :: l, P x) ↔ P a ∨ ∃ x ∈ l, P x := by
  constructor
  · rintro ⟨x, hx, hP⟩
    rcases List.mem_cons.mp hx with h | h
    · exact Or.inl (h ▸ hP)
    · exact Or.inr ⟨x, h, hP⟩
  · rintro (h | ⟨x, hx, hP⟩)
    · exact ⟨a, List.mem_cons_self _ _, h⟩
    · exact ⟨x, List.mem_cons_of_mem _ hx, hP⟩

theorem processHistory_same_event (e : EventRec) :
    ∀ (rs : List ReceiverRec) (tail : List (EventRec × ReceiverRec))
      (processed : List Int) (count : Nat) (forb : List (Int × Int)),
      e.id ∈ processed → count ≤ 2 →
      processHistory ((rs.map (fun rw => (e, rw))) ++ tail) processed count forb =
        processHistory tail processed count (rs.foldl addHistoryPair forb) := by
  intro rs
  induction rs with
  | nil => intro tail processed count forb _ _; rfl
  | cons rw rs' ih =>
    intro tail processed count forb hmem hcount
    simp only [List.map_cons, List.cons_append, processHistory]
    rw [if_pos hmem, if_pos hcount]
    exact ih tail processed count (addHistoryPair forb rw) hmem hcount

set_option maxHeartbeats 1600000 in
theorem processHistory_grouped (db : DB) :
    ∀ (evs : List EventRec) (processed : List Int) (count : Nat)
      (forb : List (Int × Int)) (g r : Int),
      (evs.map (fun e => e.id)).Nodup →
      (∀ e ∈ evs, e.id ∉ processed) →
      count ≤ 2 →
      ((g, r) ∈ processHistory
          ((evs.map (fun e => (joinedRows db e).map (fun rw => (e, rw)))).flatten)
          processed count forb ↔
        (g, r) ∈ forb ∨
        ∃ e ∈ (evs.filter (fun e => !(joinedRows db e).isEmpty)).take (2 - count),
          ∃ row ∈ joinedRows db e, row.gifter_id = some g ∧ row.user_id = r) := by
  intro evs
  induction evs with
  | nil => intro processed count forb g r _ _ _; simp [processHistory]
  | cons e evs' ih =>
    intro processed count forb g r hnd hproc hcount
    have hnd0 : (e.id :: evs'.map (fun e => e.id)).Nodup := by simpa using hnd
    have hnd' : (evs'.map (fun e => e.id)).Nodup := (List.nodup_cons.mp hnd0).2
    have hne : ∀ e' ∈ evs', e'.id ≠ e.id := by
      intro e' he' heq
      exact (List.nodup_cons.mp hnd0).1 (heq ▸ List.mem_map_of_mem (fun e => e.id) he')
    have hproc' : ∀ e' ∈ evs', e'.id ∉ processed :=
      fun e' he' => hproc e' (List.mem_cons_of_mem _ he')
    have hnotin : e.id ∉ processed := hproc e (List.mem_cons_self _ _)
    cases hjr : joinedRows db e with
    | nil =>
      simp only [List.map_cons, hjr, List.map_nil, List.flatten_cons, List.nil_append]
      rw [ih processed count forb g r hnd' hproc' hcount]
      have hfe : (e :: evs').filter (fun e => !(joinedRows db e).isEmpty) =
          evs'.filter (fun e => !(joinedRows db e).isEmpty) := by
        rw [List.filter_cons]
        simp [hjr]
      rw [hfe]
    | cons r₀ rs =>
      have hproc2 : ∀ e' ∈ evs', e'.id ∉ e.id :: processed := by
        intro e' he'
        rw [List.mem_cons, not_or]
        exact ⟨hne e' he', hproc' e' he'⟩
      have hfe : (e :: evs').filter (fun e => !(joinedRows db e).isEmpty) =
          e :: evs'.filter (fun e => !(joinedRows db e).isEmpty) := by
        rw [List.filter_cons]
        simp [hjr]
      simp only [List.map_cons, hjr, List.flatten_cons, List.cons_append]
      rw [hfe]
      interval_cases count
      · -- count = 0: the event is counted, its rows are recorded
        simp only [processHistory]
        rw [if_neg hnotin, if_neg (by omega : ¬ (0 + 1 > 2)),
          processHistory_same_event e rs _ (e.id :: processed) (0 + 1)
            (addHistoryPair forb r₀) (List.mem_cons_self _ _) (by omega),
          ih (e.id :: processed) (0 + 1) _ g r hnd' hproc2 (by omega),
          mem_foldl_addHistoryPair, mem_addHistoryPair]
        have htake : (e :: evs'.filter (fun e => !(joinedRows db e).isEmpty)).take (2 - 0) =
            e :: (evs'.filter (fun e => !(joinedRows db e).isEmpty)).take (2 - (0 + 1)) := rfl
        rw [htake, exists_mem_cons_split, hjr]
        have hrows : (∃ row ∈ r₀ :: rs, row.gifter_id = some g ∧ row.user_id = r) ↔
            ((r₀.gifter_id = some g ∧ r₀.user_id = r) ∨
              ∃ row ∈ rs, row.gifter_id = some g ∧ row.user_id = r) :=
          exists_mem_cons_split r₀ rs _
        rw [hrows]
        constructor
        · rintro (((h | h) | h) | h)
          · exact Or.inl h
          · exact Or.inr (Or.inl (Or.inl h))
          · exact Or.inr (Or.inl (Or.inr h))
          · exact Or.inr (Or.inr h)
        · rintro (h | ((h | h) | h))
          · exact Or.inl (Or.inl (Or.inl h))
          · exact Or.inl (Or.inl (Or.inr h))
          · exact Or.inl (Or.inr h)
          · exact Or.inr h
      · -- count = 1: the event takes the second slot
        simp only [processHistory]
        rw [if_neg hnotin, if_neg (by omega : ¬ (1 + 1 > 2)),
          processHistory_same_event e rs _ (e.id :: processed) (1 + 1)
            (addHistoryPair forb r₀) (List.mem_cons_self _ _) (by omega),
          ih (e.id :: processed) (1 + 1) _ g r hnd' hproc2 (by omega),
          mem_foldl_addHistoryPair, mem_addHistoryPair]
        have htake : (e :: evs'.filter (fun e => !(joinedRows db e).isEmpty)).take (2 - 1) =
            e :: (evs'.filter (fun e => !(joinedRows db e).isEmpty)).take (2 - (1 + 1)) := rfl
        rw [htake, exists_mem_cons_split, hjr]
        have hrows : (∃ row ∈ r₀ :: rs, row.gifter_id = some g ∧ row.user_id = r) ↔
            ((r₀.gifter_id = some g ∧ r₀.user_id = r) ∨
              ∃ row ∈ rs, row.gifter_id = some g ∧ row.user_id = r) :=
          exists_mem_cons_split r₀ rs _
        rw [hrows]
        constructor
        · rintro (((h | h) | h) | h)
          · exact Or.inl h
          · exact Or.inr (Or.inl (Or.inl h))
          · exact Or.inr (Or.inl (Or.inr h))
          · exact Or.inr (Or.inr h)
        · rintro (h | ((h | h) | h))
          · exact Or.inl (Or.inl (Or.inl h))
          · exact Or.inl (Or.inl (Or.inr h))
          · exact Or.inl (Or.inr h)
          · exact Or.inr h
      · -- count = 2: the third distinct event triggers the break
        simp only [processHistory]
        rw [if_neg hnotin, if_pos (by omega : 2 + 1 > 2)]
        simp

theorem matchingEvents_id_nodup (db : DB) (eventId : Int) (name : String)
    (h : (db.events.map (fun e => e.id)).Nodup) :
    ((matchingEvents db eventId name).map (fun e => e.id)).Nodup := by
  have hperm : (matchingEvents db eventId name).Perm
      (db.events.filter
        (fun e => e.event_name == name && e.id != eventId && e.status == EventStatus.ASSIGNED)) :=
    List.perm_insertionSort _ _
  rw [(hperm.map (fun e => e.id)).nodup_iff]
  exact ((List.filter_sublist db.events).map (fun e => e.id)).nodup h

/-- C4 counterexample: with the most recent matching `ASSIGNED` event
carrying only a null-gifter row, the code's default forbidden-pair set
contains the pair `8 → 9` recorded by the *third* most recent matching
event, which the claim as stated excludes. -/
theorem default_history_counterexample :
    (8, 9) ∈ buildDefaultForbidden dbHistorySkip 0 "X" ∧
    ¬ ClaimDefaultForbidden dbHistorySkip 0 "X" 8 9 := by
  refine ⟨by decide, ?_⟩
  rw [ClaimDefaultForbidden]
  decide

/-- C4 (amended): in default history mode the forbidden-pair set is exactly
the union of the non-null-gifter pairs of the (at most) two most recent
events that share the current event's name, have status `ASSIGNED`, are
distinct from the current event *and contribute at least one
non-null-gifter row*; events are deduplicated by identity (a pair recorded
in both events is forbidden once, membership being set-like) and rows of a
third such event contribute nothing. -/
theorem default_history_resolution (db : DB) (eventId : Int) (name : String)
    (hnodup : (db.events.map (fun e => e.id)).Nodup) (g r : Int) :
    ((g, r) ∈ buildDefaultForbidden db eventId name ↔
      AmendedDefaultForbidden db eventId name g r) ∧
    resolveForbiddenPairs db eventId name none = buildDefaultForbidden db eventId name := by
  refine ⟨?_, rfl⟩
  rw [buildDefaultForbidden, historyRowsDefault,
    processHistory_grouped db (matchingEvents db eventId name) [] 0 [] g r
      (matchingEvents_id_nodup db eventId name hnodup)
      (by intro e _; exact List.not_mem_nil _) (by omega)]
  simp only [List.not_mem_nil, false_or]
  constructor
  · rintro ⟨e, he, row, hrow, h1, h2⟩
    have hm := List.mem_filter.mp hrow
    refine ⟨e, he, row, hm.1, ?_, h1, h2⟩
    have := hm.2
    simp only [Bool.and_eq_true, beq_iff_eq] at this
    exact this.1
  · rintro ⟨e, he, row, hrow, heid, h1, h2⟩
    refine ⟨e, he, row, ?_, h1, h2⟩
    exact List.mem_filter.mpr ⟨hrow, by simp [heid, h1]⟩

theorem default_history_resolution_witness :
    (5, 7) ∈ buildDefaultForbidden dbHistorySkip 0 "X" ↔
      AmendedDefaultForbidden dbHistorySkip 0 "X" 5 7 :=
  (default_history_resolution dbHistorySkip 0 "X" (by decide) 5 7).1

end SecretSanta
